import Mathlib

/-!
Verification of the emoticon-maker application core: the bounded-concurrency
generation pipeline and the canvas collage compositor.

The results map is a JavaScript object keyed by emotion label; we model it as
an association list, and the object-spread write `{...prev, [label]: v}` as
`setEntry`, which replaces the entry in place when the key is present and
appends it otherwise. JavaScript numbers in the compositor geometry are
modelled as exact rationals.
-/

/-- `type ImageStatus = 'pending' | 'done' | 'error'`. -/
inductive ImageStatus where
  | pending
  | done
  | error
deriving DecidableEq, Repr

/-- `interface GeneratedImage { status; url?; error? }`. -/
structure GeneratedImage where
  status : ImageStatus
  url : Option String := none
  error : Option String := none
deriving DecidableEq, Repr

/-- One entry of the `EMOTIONS` constant. -/
structure EmotionSpec where
  id : String
  label : String
  promptAdjective : String
deriving DecidableEq, Repr

/-- The fixed `EMOTIONS` list (labels are the literal bytes of the source file). -/
def EMOTIONS : List EmotionSpec :=
  [ { id := "joy", label := "ÌïµÏù∏Ïã∏ ÏõÉÏùå",
      promptAdjective := "overjoyed, laughing uncontrollably, extremely happy, ROFL" },
    { id := "sadness", label := "Í¥ëÍ¥ë Ïö∞Îü≠",
      promptAdjective := "crying dramatic tears, very sad, gloomy, heartbroken" },
    { id := "anger", label := "Í∑πÎåÄÎÖ∏",
      promptAdjective := "furious, angry, fire in eyes, red face, steam coming out of ears" },
    { id := "surprise", label := "„Ñ¥0„Ñ± ÏÉÅÏÉÅÎ∂àÍ∞Ä",
      promptAdjective := "shocked, mind blown, wide eyes, jaw dropped, exploding head gesture" },
    { id := "love", label := "Ïã¨Ïøµ Ï£ºÏùò",
      promptAdjective := "deeply in love, heart eyes, floating hearts, romantic blush" },
    { id := "confused", label := "ÎèôÍ≥µ ÏßÄÏßÑ",
      promptAdjective := "confused, dizzy eyes, question marks, scratching head, bewildered" } ]

/-- The results map `Record<string, GeneratedImage>`, as an association list in
key insertion order (JavaScript object semantics). -/
abbrev ResultsMap : Type := List (String × GeneratedImage)

/-- Property access `m[label]`: the value at the first (unique) matching key. -/
def lookupEntry : ResultsMap → String → Option GeneratedImage
  | [], _ => none
  | p :: rest, l => if p.1 = l then some p.2 else lookupEntry rest l

/-- The object-spread write `{...prev, [label]: v}`: replace in place when the
key exists, append otherwise. -/
def setEntry : ResultsMap → String → GeneratedImage → ResultsMap
  | [], l, v => [(l, v)]
  | p :: rest, l, v => if p.1 = l then (l, v) :: rest else p :: setEntry rest l v

/-- The generic fallback of `err instanceof Error ? err.message : "..."`
(the literal bytes of the source file). -/
def defaultErrorMessage : String := "Ïò§Î•ò Î∞úÏÉù"

/-- The prompt template shared by `processEmotion` and `handleRegenerateEmotion`. -/
def buildPrompt (promptAdjective : String) : String :=
  "Turn the person in this photo into a trendy, high-quality 3D Pixar-style character or glossy 3D sticker art. The character is expressing the emotion: " ++ promptAdjective ++ ". The facial expression must be exaggerated and funny. Lighting should be studio quality with rim lighting. Background should be a simple, vibrant solid pop color."

/-- The entry written by `initialImages[emotion.label] = { status: 'pending' }`
and by the regenerate reset. -/
def pendingEntry : GeneratedImage := { status := .pending }

/-- The entry written on success: `{ status: 'done', url: resultUrl }`. -/
def doneEntry (url : String) : GeneratedImage := { status := .done, url := some url }

/-- The entry written on failure: `{ status: 'error', error: errorMessage }`,
where the message defaults when the thrown value is not an `Error`. -/
def errorEntry (msg : Option String) : GeneratedImage :=
  { status := .error, error := some (msg.getD defaultErrorMessage) }

/-- The outcome of one `generateDecadeImage` request: a result url, or a
failure carrying an optional message. -/
abbrev GenOutcome : Type := Except (Option String) String

/-- The terminal entry `processEmotion` publishes for a settled request. -/
def settledEntry : GenOutcome → GeneratedImage
  | .ok url => doneEntry url
  | .error msg => errorEntry msg

/-- `const concurrencyLimit = 2`. -/
def concurrencyLimit : Nat := 2

/-- One instant of `handleGenerateClick`: the shared `emotionsQueue`, the specs
whose request is currently awaited (`busy`), how many of the two workers are
between awaits (`idle`) or have exited their loop (`finished`), the results
map, and per-label counters of issued requests and terminal transitions. -/
structure PipelineState where
  queue : List EmotionSpec
  busy : List EmotionSpec
  idle : Nat
  finished : Nat
  results : ResultsMap
  requests : String → Nat
  transitions : String → Nat

/-- Increment a per-label counter. -/
def bump (f : String → Nat) (l : String) : String → Nat :=
  fun x => if x = l then f x + 1 else f x

/-- An idle worker executes `emotionsQueue.shift()` (synchronous, hence
exclusive) and starts awaiting `processEmotion` for the popped spec. -/
def applyPop (s : PipelineState) (e : EmotionSpec) (rest : List EmotionSpec) :
    PipelineState :=
  { s with
    queue := rest
    busy := e :: s.busy
    idle := s.idle - 1
    requests := bump s.requests e.label }

/-- A request settles: `processEmotion` publishes the terminal entry for the
spec's label and its worker returns to the top of its loop. -/
def applySettle (s : PipelineState) (e : EmotionSpec) (l1 l2 : List EmotionSpec)
    (out : GenOutcome) : PipelineState :=
  { s with
    busy := l1 ++ l2
    idle := s.idle + 1
    results := setEntry s.results e.label (settledEntry out)
    transitions := bump s.transitions e.label }

/-- An idle worker observes `emotionsQueue.length === 0` and exits its loop. -/
def applyFinish (s : PipelineState) : PipelineState :=
  { s with idle := s.idle - 1, finished := s.finished + 1 }

/-- The pipeline's atomic steps: pop, settle (with either outcome), finish.
The single-threaded event loop makes each of these atomic in the source. -/
inductive PipelineStep : PipelineState → PipelineState → Prop where
  | pop (s : PipelineState) (e : EmotionSpec) (rest : List EmotionSpec)
      (hq : s.queue = e :: rest) (hidle : 0 < s.idle) :
      PipelineStep s (applyPop s e rest)
  | settle (s : PipelineState) (e : EmotionSpec) (l1 l2 : List EmotionSpec)
      (out : GenOutcome) (hb : s.busy = l1 ++ e :: l2) :
      PipelineStep s (applySettle s e l1 l2 out)
  | finish (s : PipelineState) (hq : s.queue = []) (hidle : 0 < s.idle) :
      PipelineStep s (applyFinish s)

/-- The state right after `setGeneratedImages(initialImages)` seeded every
label `pending` and the two workers were created over `[...EMOTIONS]`. -/
def initState (q : List EmotionSpec) : PipelineState :=
  { queue := q, busy := [], idle := concurrencyLimit, finished := 0,
    results := q.map (fun e => (e.label, pendingEntry)),
    requests := fun _ => 0, transitions := fun _ => 0 }

/-- States an interleaving of the worker pool can reach during one run. -/
def Reachable (q : List EmotionSpec) (s : PipelineState) : Prop :=
  Relation.ReflTransGen PipelineStep (initState q) s

/-- `await Promise.all(workers)` has resolved: both workers exited their loop. -/
def Settled (s : PipelineState) : Prop := s.finished = concurrencyLimit

/-- Requests outstanding at an instant: one per busy worker. -/
def outstanding (s : PipelineState) : Nat := s.busy.length

/-- A terminal entry (`done` or `error`). -/
def IsTerminal (r : GeneratedImage) : Prop :=
  r.status = .done ∨ r.status = .error

/-- How many queued specs carry a given label. -/
def cntQ (s : PipelineState) (l : String) : Nat :=
  s.queue.countP (fun e => e.label = l)

/-- How many busy specs carry a given label. -/
def cntB (s : PipelineState) (l : String) : Nat :=
  s.busy.countP (fun e => e.label = l)

/-- 1 when the results entry for a label is terminal, else 0. -/
def termCount (s : PipelineState) (l : String) : Nat :=
  match lookupEntry s.results l with
  | some r => if r.status = .done ∨ r.status = .error then 1 else 0
  | none => 0

/-- Per-label bookkeeping invariant of the worker pool. -/
def LabelInv (s : PipelineState) (l : String) : Prop :=
  cntQ s l + cntB s l + termCount s l = 1 ∧
  s.requests l = cntB s l + termCount s l ∧
  s.transitions l = termCount s l ∧
  (termCount s l = 0 → lookupEntry s.results l = some pendingEntry)

/-- Global invariant: worker accounting, drained-queue-at-exit, and the
per-label invariant for every spec of the original list. -/
def PipelineInv (q : List EmotionSpec) (s : PipelineState) : Prop :=
  s.idle + s.busy.length + s.finished = concurrencyLimit ∧
  (0 < s.finished → s.queue = []) ∧
  ∀ e ∈ q, LabelInv s e.label

/-- Worker accounting: the three worker modes always total `concurrencyLimit`,
and once any worker has exited, the queue is already empty. -/
def AcctInv (s : PipelineState) : Prop :=
  s.idle + s.busy.length + s.finished = concurrencyLimit ∧
  (0 < s.finished → s.queue = [])

/-- `handleRegenerateEmotion(label)`, as a function of the uploaded image, the
`generateDecadeImage` collaborator, and the current results map. It returns
the final results map together with the number of generation requests issued. -/
def handleRegenerateEmotion (uploadedImage : Option String)
    (gen : String → String → GenOutcome) (m : ResultsMap) (label : String) :
    ResultsMap × Nat :=
  match uploadedImage with
  | none => (m, 0)
  | some img =>
    match EMOTIONS.find? (fun e => e.label = label) with
    | none => (m, 0)
    | some emotionItem =>
      if (lookupEntry m label).map (fun r => r.status) = some .pending then (m, 0)
      else
        let m1 := setEntry m label pendingEntry
        match gen img (buildPrompt emotionItem.promptAdjective) with
        | .ok url => (setEntry m1 label (doneEntry url), 1)
        | .error msg => (setEntry m1 label (errorEntry msg), 1)

/-- Invariant claimed for every entry: at most one of url/error set, and
`pending` implies both unset. -/
def wellFormedEntry (r : GeneratedImage) : Prop :=
  (r.url = none ∨ r.error = none) ∧
  (r.status = .pending → r.url = none ∧ r.error = none)

/-- The entry invariant over a whole results map. -/
def wellFormedMap (m : ResultsMap) : Prop := ∀ p ∈ m, wellFormedEntry p.2

instance (r : GeneratedImage) : Decidable (wellFormedEntry r) :=
  inferInstanceAs (Decidable ((r.url = none ∨ r.error = none) ∧
    (r.status = .pending → r.url = none ∧ r.error = none)))

instance (m : ResultsMap) : Decidable (wellFormedMap m) :=
  inferInstanceAs (Decidable (∀ p ∈ m, wellFormedEntry p.2))

/-- An image element: the pixel dimensions the browser decoded from a source
url (`naturalWidth`/`naturalHeight`), as exact rationals. -/
structure ImgEl where
  naturalWidth : ℚ
  naturalHeight : ℚ
deriving DecidableEq, Repr

/-- `loadImage(src)` over a decode oracle for the browser's image loader: on
success the element, on failure the formatted rejection message. -/
def loadImage (decode : String → Option ImgEl) (src : String) : Except String ImgEl :=
  match decode src with
  | some img => .ok img
  | none => .error ("Failed to load image: " ++ src.take 50 ++ "...")

def canvasWidth : ℚ := 2480

def canvasHeight : ℚ := 3508

/-- `grid = { cols: 2, rows: 3, padding: 120 }`. -/
def gridCols : Nat := 2

def gridRows : Nat := 3

def gridPadding : ℚ := 120

def contentTopMargin : ℚ := 400

def contentHeight : ℚ := canvasHeight - contentTopMargin

def cellWidth : ℚ := (canvasWidth - gridPadding * ((gridCols : ℚ) + 1)) / (gridCols : ℚ)

def cellHeight : ℚ :=
  (contentHeight - gridPadding * ((gridRows : ℚ) + 1)) / (gridRows : ℚ)

/-- `cardAspectRatio = 3/4`. -/
def cardAspect : ℚ := 3 / 4

def cardHeight : ℚ := cellHeight * (9 / 10)

def cardWidth : ℚ := cardHeight * cardAspect

/-- `imgHeight = cardHeight * 0.85`: the image area in the upper card portion. -/
def imageAreaHeight : ℚ := cardHeight * (85 / 100)

/-- The "cover" fit: `(drawW, drawH, offX, offY)` for a source of natural size
`imgW × imgH` drawn into a `targetW × targetH` rectangle. -/
def coverFit (imgW imgH targetW targetH : ℚ) : ℚ × ℚ × ℚ × ℚ :=
  let imgR := imgW / imgH
  let targetR := targetW / targetH
  if targetR < imgR then
    let drawH := targetH
    let drawW := drawH * imgR
    (drawW, drawH, -(drawW - targetW) / 2, 0)
  else
    let drawW := targetW
    let drawH := drawW / imgR
    (drawW, drawH, 0, -(drawH - targetH) / 2)

/-- The card's x position: `grid.padding * (col+1) + cellWidth * col +
(cellWidth - cardWidth) / 2`. -/
def cardX (col : Nat) : ℚ :=
  gridPadding * ((col : ℚ) + 1) + cellWidth * (col : ℚ) + (cellWidth - cardWidth) / 2

/-- The card's y position: `contentTopMargin + grid.padding * (row+1) +
cellHeight * row + (cellHeight - cardHeight) / 2`. -/
def cardY (row : Nat) : ℚ :=
  contentTopMargin + gridPadding * ((row : ℚ) + 1) + cellHeight * (row : ℚ) +
    (cellHeight - cardHeight) / 2

/-- Everything the compositor draws for one card. -/
structure CardDraw where
  label : String
  row : Nat
  col : Nat
  x : ℚ
  y : ℚ
  rotation : ℚ
  drawW : ℚ
  drawH : ℚ
  offX : ℚ
  offY : ℚ
deriving Repr

/-- The body of the per-card `forEach` of `createAlbumPage`, with the call to
`Math.random()` for card `index` supplied by the oracle `rand`. -/
def drawCard (rand : Nat → ℚ) (index : Nat) (label : String) (img : ImgEl) : CardDraw :=
  let row := index / gridCols
  let col := index % gridCols
  let fit := coverFit img.naturalWidth img.naturalHeight cardWidth imageAreaHeight
  { label := label
    row := row
    col := col
    x := cardX col
    y := cardY row
    rotation := (rand index - 1 / 2) * (5 / 100)
    drawW := fit.1
    drawH := fit.2.1
    offX := fit.2.2.1
    offY := fit.2.2.2 }

/-- The serialized album page: canvas dimensions, the drawn cards in input
order, and the JPEG quality passed to `toDataURL`. -/
structure AlbumPage where
  width : ℚ
  height : ℚ
  cards : List CardDraw
  quality : ℚ
deriving Repr

/-- `Promise.all(Object.values(imageData).map(url => loadImage(url)))`: all
loads are issued, the join waits for every one, and any single rejection
rejects the whole combination. -/
def loadImages (decode : String → Option ImgEl) : List String → Except String (List ImgEl)
  | [] => .ok []
  | src :: rest =>
    match loadImage decode src, loadImages decode rest with
    | .error msg, _ => .error msg
    | .ok _, .error msg => .error msg
    | .ok img, .ok imgs => .ok (img :: imgs)

/-- `createAlbumPage(imageData)`: `ctx2d` models whether
`canvas.getContext('2d')` returns a context, `decode` the browser image
loader, `rand` the rotation jitter source. The cards are drawn only after
the `Promise.all` join of all image loads succeeds. -/
def createAlbumPage (ctx2d : Bool) (decode : String → Option ImgEl) (rand : Nat → ℚ)
    (imageData : List (String × String)) : Except String AlbumPage :=
  if ctx2d then
    match loadImages decode (imageData.map Prod.snd) with
    | .error msg => .error msg
    | .ok loadedImages =>
      let imagesWithLabels := (imageData.map Prod.fst).zip loadedImages
      .ok { width := canvasWidth
            height := canvasHeight
            cards := imagesWithLabels.enum.map (fun p => drawCard rand p.1 p.2.1 p.2.2)
            quality := 9 / 10 }
  else .error "Could not get 2D canvas context"

/-- JavaScript truthiness of the optional `url` string (`"" ` is falsy). -/
def truthy : Option String → Bool
  | none => false
  | some s => !(s == "")

/-- The album input of `handleDownloadAlbum`: the `filter`/`reduce` over
`Object.entries(generatedImages)` keeping `done` entries with a truthy url. -/
def albumImageData (m : ResultsMap) : List (String × String) :=
  m.filterMap (fun p =>
    if p.2.status = .done ∧ truthy p.2.url = true then
      p.2.url.map (fun u => (p.1, u))
    else none)

/-- `handleDownloadAlbum`: reject up front when fewer than `EMOTIONS.length`
entries are done-with-url, otherwise compose. The second component is the
results map after the handler, which it never writes. -/
def handleDownloadAlbum (ctx2d : Bool) (decode : String → Option ImgEl) (rand : Nat → ℚ)
    (m : ResultsMap) : Option AlbumPage × ResultsMap :=
  let imageData := albumImageData m
  if imageData.length < EMOTIONS.length then (none, m)
  else
    match createAlbumPage ctx2d decode rand imageData with
    | .ok page => (some page, m)
    | .error _ => (none, m)

/-- A one-spec list used to exercise the pipeline model on explicit traces. -/
def wSpec : EmotionSpec := { id := "joy", label := "A", promptAdjective := "x" }

def wState0 : PipelineState := initState [wSpec]

def wState1 : PipelineState := applyPop wState0 wSpec []

def wState2 : PipelineState := applySettle wState1 wSpec [] [] (.ok "u")

def wState3 : PipelineState := applyFinish wState2

def wState4 : PipelineState := applyFinish wState3

/-- A results map in which all six emotion labels are done with a url. -/
def wDoneMap : ResultsMap := EMOTIONS.map (fun e => (e.label, doneEntry "u"))

/-- A decode oracle that succeeds on every source with a 1×1 image. -/
def wDecode : String → Option ImgEl := fun _ => some { naturalWidth := 1, naturalHeight := 1 }

/-- The zero-jitter randomness source (`Math.random()` pinned to 1/2). -/
def wRand : Nat → ℚ := fun _ => 1 / 2

def wAlbumPage : AlbumPage :=
  { width := canvasWidth
    height := canvasHeight
    cards := [drawCard wRand 0 "a" { naturalWidth := 1, naturalHeight := 1 }]
    quality := 9 / 10 }

/-- A seven-entry album input, one more than the 2×3 grid holds. -/
def wSeven : List (String × String) :=
  [("a", "u"), ("b", "u"), ("c", "u"), ("d", "u"), ("e", "u"), ("f", "u"), ("g", "u")]

theorem lookupEntry_setEntry (m : ResultsMap) (l l' : String) (v : GeneratedImage) :
    lookupEntry (setEntry m l v) l' = if l' = l then some v else lookupEntry m l' := by
  induction m with
  | nil =>
    by_cases h : l' = l
    · subst h
      simp [setEntry, lookupEntry]
    · simp [setEntry, lookupEntry, h, Ne.symm h]
  | cons p rest ih =>
    by_cases hp : p.1 = l
    · by_cases h : l' = l
      · subst h
        simp [setEntry, lookupEntry, hp]
      · simp [setEntry, lookupEntry, hp, h, Ne.symm h]
    · by_cases h : p.1 = l'
      · have hne : ¬ l' = l := fun hc => hp (h.trans hc)
        simp [setEntry, lookupEntry, hp, h, hne]
      · simp [setEntry, lookupEntry, hp, h, ih]

theorem lookupEntry_setEntry_self (m : ResultsMap) (l : String) (v : GeneratedImage) :
    lookupEntry (setEntry m l v) l = some v := by
  simp [lookupEntry_setEntry]

theorem lookupEntry_setEntry_other (m : ResultsMap) (l l' : String) (v : GeneratedImage)
    (h : l' ≠ l) : lookupEntry (setEntry m l v) l' = lookupEntry m l' := by
  simp [lookupEntry_setEntry, h]

theorem mem_setEntry {m : ResultsMap} {l : String} {v : GeneratedImage}
    {p : String × GeneratedImage} (hp : p ∈ setEntry m l v) : p ∈ m ∨ p = (l, v) := by
  induction m with
  | nil =>
    simp [setEntry] at hp
    exact Or.inr hp
  | cons q rest ih =>
    by_cases hq : q.1 = l
    · simp [setEntry, hq] at hp
      rcases hp with hp | hp
      · exact Or.inr hp
      · exact Or.inl (List.mem_cons_of_mem _ hp)
    · simp [setEntry, hq] at hp
      rcases hp with hp | hp
      · exact Or.inl (by simp [hp])
      · rcases ih hp with h | h
        · exact Or.inl (List.mem_cons_of_mem _ h)
        · exact Or.inr h

theorem lookupEntry_mem {m : ResultsMap} {l : String} {r : GeneratedImage}
    (h : lookupEntry m l = some r) : (l, r) ∈ m := by
  induction m with
  | nil => simp [lookupEntry] at h
  | cons p rest ih =>
    by_cases hp : p.1 = l
    · simp [lookupEntry, hp] at h
      have hpe : p = (l, r) := by
        cases p
        simp_all
      rw [← hpe]
      exact List.mem_cons_self _ _
    · simp [lookupEntry, hp] at h
      exact List.mem_cons_of_mem _ (ih h)

theorem lookupEntry_of_mem_nodup {m : ResultsMap} {l : String} {r : GeneratedImage}
    (hnd : (m.map Prod.fst).Nodup) (h : (l, r) ∈ m) : lookupEntry m l = some r := by
  induction m with
  | nil => simp at h
  | cons p rest ih =>
    rw [List.map_cons, List.nodup_cons] at hnd
    rcases List.mem_cons.mp h with h | h
    · subst h
      simp [lookupEntry]
    · have hne : p.1 ≠ l := by
        intro hc
        apply hnd.1
        rw [hc]
        exact List.mem_map_of_mem Prod.fst h
      simp [lookupEntry, hne]
      exact ih hnd.2 h

theorem settledEntry_terminal (out : GenOutcome) : IsTerminal (settledEntry out) := by
  cases out with
  | ok url => exact Or.inl rfl
  | error msg => exact Or.inr rfl

theorem acctInv_init (q : List EmotionSpec) : AcctInv (initState q) := by
  constructor
  · simp [initState]
  · intro h
    simp [initState] at h

theorem acctInv_step {s s' : PipelineState} (hstep : PipelineStep s s')
    (hinv : AcctInv s) : AcctInv s' := by
  obtain ⟨h1, h2⟩ := hinv
  cases hstep with
  | pop e rest hq hidle =>
    constructor
    · simp only [applyPop, List.length_cons]
      omega
    · intro hf
      simp only [applyPop] at hf
      rw [h2 hf] at hq
      simp at hq
  | settle e l1 l2 out hb =>
    constructor
    · simp only [applySettle, List.length_append]
      rw [hb] at h1
      simp only [List.length_append, List.length_cons] at h1
      omega
    · intro hf
      simp only [applySettle] at hf
      exact h2 hf
  | finish hq hidle =>
    constructor
    · simp only [applyFinish]
      omega
    · intro _
      exact hq

theorem acctInv_reachable {q : List EmotionSpec} {s : PipelineState}
    (h : Reachable q s) : AcctInv s := by
  induction h with
  | refl => exact acctInv_init q
  | tail _ hstep ih => exact acctInv_step hstep ih

theorem labelInv_step {s s' : PipelineState} {l : String} (hstep : PipelineStep s s')
    (hinv : LabelInv s l) : LabelInv s' l := by
  obtain ⟨h1, h2, h3, h4⟩ := hinv
  cases hstep with
  | pop e rest hq hidle =>
    have hcq : cntQ s l = cntQ (applyPop s e rest) l +
        (if e.label = l then 1 else 0) := by
      simp only [cntQ, applyPop, hq, List.countP_cons]
      by_cases hel : e.label = l <;> simp [hel]
    have hcb : cntB (applyPop s e rest) l = cntB s l +
        (if e.label = l then 1 else 0) := by
      simp only [cntB, applyPop, List.countP_cons]
      by_cases hel : e.label = l <;> simp [hel]
    have ht : termCount (applyPop s e rest) l = termCount s l := rfl
    have hreq : (applyPop s e rest).requests l = s.requests l +
        (if e.label = l then 1 else 0) := by
      simp only [applyPop, bump]
      by_cases hel : e.label = l
      · simp [hel]
      · rw [if_neg (fun hc : l = e.label => hel hc.symm), if_neg hel]
        omega
    refine ⟨by omega, by rw [hreq, hcb, ht, h2]; omega, by rw [ht]; exact h3, ?_⟩
    intro h0
    rw [ht] at h0
    exact h4 h0
  | settle e l1 l2 out hb =>
    by_cases hel : e.label = l
    · have hcb : cntB s l = cntB (applySettle s e l1 l2 out) l + 1 := by
        simp only [cntB, applySettle, hb, List.countP_append, List.countP_cons, hel]
        simp
        omega
      have hcq : cntQ (applySettle s e l1 l2 out) l = cntQ s l := rfl
      have ht' : termCount (applySettle s e l1 l2 out) l = 1 := by
        simp only [termCount, applySettle, hel, lookupEntry_setEntry_self]
        rcases settledEntry_terminal out with h | h <;> simp [h]
      have ht0 : termCount s l = 0 := by omega
      have hreq : (applySettle s e l1 l2 out).requests l = s.requests l := rfl
      have htr : (applySettle s e l1 l2 out).transitions l = s.transitions l + 1 := by
        simp [applySettle, bump, hel]
      refine ⟨by omega, by rw [hreq, h2]; omega, by rw [htr, h3]; omega, ?_⟩
      intro h0
      rw [ht'] at h0
      cases h0
    · have hcb : cntB (applySettle s e l1 l2 out) l = cntB s l := by
        simp only [cntB, applySettle, hb, List.countP_append, List.countP_cons]
        simp [hel]
      have hcq : cntQ (applySettle s e l1 l2 out) l = cntQ s l := rfl
      have hlook : lookupEntry (applySettle s e l1 l2 out).results l =
          lookupEntry s.results l := by
        simp only [applySettle]
        exact lookupEntry_setEntry_other _ _ _ _ (fun hc => hel hc.symm)
      have ht : termCount (applySettle s e l1 l2 out) l = termCount s l := by
        simp only [termCount, hlook]
      have hreq : (applySettle s e l1 l2 out).requests l = s.requests l := rfl
      have htr : (applySettle s e l1 l2 out).transitions l = s.transitions l := by
        have hne : ¬ l = e.label := fun hc => hel hc.symm
        simp [applySettle, bump, hne]
      refine ⟨by omega, by rw [hreq, hcb, ht]; exact h2, by rw [htr, ht]; exact h3, ?_⟩
      intro h0
      rw [ht] at h0
      rw [hlook]
      exact h4 h0
  | finish hq hidle =>
    exact ⟨h1, h2, h3, h4⟩

theorem lookupEntry_initResults {q : List EmotionSpec} {e : EmotionSpec} (he : e ∈ q) :
    lookupEntry (q.map (fun x => (x.label, pendingEntry))) e.label = some pendingEntry := by
  induction q with
  | nil => simp at he
  | cons a rest ih =>
    by_cases h : a.label = e.label
    · simp [lookupEntry, h]
    · rcases List.mem_cons.mp he with he | he
      · rw [he] at h
        exact absurd rfl h
      · simp [lookupEntry, h]
        exact ih he

theorem countP_label_eq_one {q : List EmotionSpec} {e : EmotionSpec}
    (hq : (q.map (fun x => x.label)).Nodup) (he : e ∈ q) :
    q.countP (fun x => x.label = e.label) = 1 := by
  induction q with
  | nil => simp at he
  | cons a rest ih =>
    rw [List.map_cons, List.nodup_cons] at hq
    rcases List.mem_cons.mp he with he | he
    · subst he
      have hz : rest.countP (fun x => x.label = e.label) = 0 := by
        rw [List.countP_eq_zero]
        intro x hx
        simp only [decide_eq_true_eq]
        intro hc
        exact hq.1 (hc ▸ List.mem_map_of_mem (fun y => y.label) hx)
      simp [List.countP_cons, hz]
    · have hne : ¬ a.label = e.label := by
        intro hc
        exact hq.1 (hc ▸ List.mem_map_of_mem (fun y => y.label) he)
      simp [List.countP_cons, hne, ih hq.2 he]

theorem labelInv_init {q : List EmotionSpec} {e : EmotionSpec}
    (hq : (q.map (fun x => x.label)).Nodup) (he : e ∈ q) :
    LabelInv (initState q) e.label := by
  have hlook : lookupEntry (initState q).results e.label = some pendingEntry :=
    lookupEntry_initResults he
  have ht : termCount (initState q) e.label = 0 := by
    simp [termCount, hlook, pendingEntry]
  refine ⟨?_, ?_, ?_, fun _ => hlook⟩
  · rw [ht]
    have h1 := countP_label_eq_one hq he
    simp only [cntQ, cntB, initState, List.countP_nil, Nat.add_zero]
    exact h1
  · rw [ht]
    simp [cntB, initState]
  · rw [ht]
    simp [initState]

theorem labelInv_reachable {q : List EmotionSpec} {s : PipelineState} {e : EmotionSpec}
    (hq : (q.map (fun x => x.label)).Nodup) (he : e ∈ q) (h : Reachable q s) :
    LabelInv s e.label := by
  induction h with
  | refl => exact labelInv_init hq he
  | tail _ hstep ih => exact labelInv_step hstep ih

theorem wellFormedMap_setEntry {m : ResultsMap} {l : String} {v : GeneratedImage}
    (hm : wellFormedMap m) (hv : wellFormedEntry v) : wellFormedMap (setEntry m l v) := by
  intro p hp
  rcases mem_setEntry hp with h | h
  · exact hm p h
  · rw [h]
    exact hv

/-- C1: for every run of the generation pipeline over a fixed list of
EmotionSpec entries with distinct labels, once the run settles (both workers
have joined), every label's result has a terminal status in {done, error} — no
label remains pending — and each label received exactly one request and
exactly one terminal transition during the run. -/
theorem pipeline_settles_everyLabel_terminal_once (q : List EmotionSpec)
    (hq : (q.map (fun x => x.label)).Nodup) (s : PipelineState)
    (hr : Reachable q s) (hs : Settled s) :
    ∀ e ∈ q, (∃ r, lookupEntry s.results e.label = some r ∧ IsTerminal r) ∧
      s.requests e.label = 1 ∧ s.transitions e.label = 1 := by
  intro e he
  obtain ⟨hacct, hdrain⟩ := acctInv_reachable hr
  obtain ⟨h1, h2, h3, h4⟩ := labelInv_reachable hq he hr
  have hfin : s.finished = 2 := hs
  have hqe : s.queue = [] := hdrain (by omega)
  have hbe : s.busy = [] := by
    have hlen : s.busy.length = 0 := by
      simp only [concurrencyLimit] at hacct
      omega
    exact List.length_eq_zero.mp hlen
  have hcq0 : cntQ s e.label = 0 := by simp [cntQ, hqe]
  have hcb0 : cntB s e.label = 0 := by simp [cntB, hbe]
  have ht1 : termCount s e.label = 1 := by omega
  refine ⟨?_, by omega, by omega⟩
  unfold termCount at ht1
  cases hl : lookupEntry s.results e.label with
  | none =>
    rw [hl] at ht1
    simp at ht1
  | some r =>
    rw [hl] at ht1
    refine ⟨r, rfl, ?_⟩
    by_cases hterm : r.status = .done ∨ r.status = .error
    · exact hterm
    · simp [hterm] at ht1

/-- C2: at every instant during a pipeline run, for a queue of any length, the
number of simultaneously outstanding generation requests never exceeds the
fixed pool size of 2 workers, each awaiting one request at a time. -/
theorem pipeline_outstanding_le_limit (q : List EmotionSpec) (s : PipelineState)
    (hr : Reachable q s) : outstanding s ≤ concurrencyLimit := by
  have h := (acctInv_reachable hr).1
  simp only [outstanding]
  omega

theorem wReach1 : Reachable [wSpec] wState1 :=
  Relation.ReflTransGen.tail Relation.ReflTransGen.refl
    (PipelineStep.pop wState0 wSpec [] rfl (by decide))

theorem wReach2 : Reachable [wSpec] wState2 :=
  Relation.ReflTransGen.tail wReach1
    (PipelineStep.settle wState1 wSpec [] [] (.ok "u") rfl)

theorem wReach4 : Reachable [wSpec] wState4 :=
  Relation.ReflTransGen.tail
    (Relation.ReflTransGen.tail wReach2 (PipelineStep.finish wState2 rfl (by decide)))
    (PipelineStep.finish wState3 rfl (by decide))

theorem pipeline_settles_everyLabel_terminal_once_witness :
    (∃ r, lookupEntry wState4.results wSpec.label = some r ∧ IsTerminal r) ∧
      wState4.requests wSpec.label = 1 ∧ wState4.transitions wSpec.label = 1 :=
  pipeline_settles_everyLabel_terminal_once [wSpec] (by decide) wState4 wReach4 rfl
    wSpec (by decide)

theorem pipeline_outstanding_le_limit_witness : outstanding wState1 ≤ concurrencyLimit :=
  pipeline_outstanding_le_limit [wSpec] wState1 wReach1

/-- C3: every write of a GenerationResult — initial pending creation, done
transition, error transition, regenerate reset — preserves the invariant that
at most one of {url, error} is set and that pending implies both unset, and
every write is a whole-entry replacement keyed by label. -/
theorem results_writes_wellFormed_and_keyed (q : List EmotionSpec) (m : ResultsMap)
    (l : String) (hm : wellFormedMap m) :
    wellFormedMap (initState q).results ∧
    (∀ url, wellFormedMap (setEntry m l (doneEntry url))) ∧
    (∀ msg, wellFormedMap (setEntry m l (errorEntry msg))) ∧
    wellFormedMap (setEntry m l pendingEntry) ∧
    (∀ v, lookupEntry (setEntry m l v) l = some v) ∧
    (∀ v l', l' ≠ l → lookupEntry (setEntry m l v) l' = lookupEntry m l') := by
  refine ⟨?_, ?_, ?_, ?_, ?_, ?_⟩
  · intro p hp
    simp only [initState] at hp
    obtain ⟨e, he, hpe⟩ := List.mem_map.mp hp
    rw [← hpe]
    exact ⟨Or.inl rfl, fun _ => ⟨rfl, rfl⟩⟩
  · intro url
    exact wellFormedMap_setEntry hm ⟨Or.inr rfl, by simp [doneEntry]⟩
  · intro msg
    exact wellFormedMap_setEntry hm ⟨Or.inl rfl, by simp [errorEntry]⟩
  · exact wellFormedMap_setEntry hm ⟨Or.inl rfl, fun _ => ⟨rfl, rfl⟩⟩
  · intro v
    exact lookupEntry_setEntry_self m l v
  · intro v l' h
    exact lookupEntry_setEntry_other m l l' v h

theorem results_writes_wellFormed_and_keyed_witness :
    wellFormedMap (initState [wSpec]).results ∧
    (∀ url, wellFormedMap (setEntry [("A", doneEntry "u")] "A" (doneEntry url))) ∧
    (∀ msg, wellFormedMap (setEntry [("A", doneEntry "u")] "A" (errorEntry msg))) ∧
    wellFormedMap (setEntry [("A", doneEntry "u")] "A" pendingEntry) ∧
    (∀ v, lookupEntry (setEntry [("A", doneEntry "u")] "A" v) "A" = some v) ∧
    (∀ v l', l' ≠ "A" →
      lookupEntry (setEntry [("A", doneEntry "u")] "A" v) l' =
        lookupEntry [("A", doneEntry "u")] l') :=
  results_writes_wellFormed_and_keyed [wSpec] [("A", doneEntry "u")] "A" (by decide)

/-- C4: calling regenerate on a label whose current status is pending is a
no-op — no request is issued and the results map is unchanged. -/
theorem regenerate_pending_noop (uploadedImage : Option String)
    (gen : String → String → GenOutcome) (m : ResultsMap) (label : String)
    (h : ∃ r, lookupEntry m label = some r ∧ r.status = .pending) :
    handleRegenerateEmotion uploadedImage gen m label = (m, 0) := by
  obtain ⟨r, hr, hst⟩ := h
  unfold handleRegenerateEmotion
  cases uploadedImage with
  | none => rfl
  | some img =>
    cases EMOTIONS.find? (fun e => e.label = label) with
    | none => rfl
    | some eItem => simp [hr, hst]

theorem regenerate_pending_noop_witness :
    handleRegenerateEmotion (some "img") (fun _ _ => .ok "u")
      [("A", pendingEntry)] "A" = ([("A", pendingEntry)], 0) :=
  regenerate_pending_noop (some "img") (fun _ _ => .ok "u") [("A", pendingEntry)] "A"
    ⟨pendingEntry, by decide, rfl⟩

/-- C5: when a generation request settles with failure — in the pipeline or in
regenerate — that label transitions to error with the message extracted from
the failure, defaulting to the generic message when the failure carries none,
and the failure leaves the queue, the sibling in-flight requests and every
other label's entry untouched. -/
theorem failure_sets_error_locally (s : PipelineState) (e : EmotionSpec)
    (l1 l2 : List EmotionSpec) (msg : Option String) (hb : s.busy = l1 ++ e :: l2)
    (img : String) (m : ResultsMap) (label : String) (eItem : EmotionSpec)
    (hfind : EMOTIONS.find? (fun x => x.label = label) = some eItem)
    (hnp : ¬ (lookupEntry m label).map (fun r => r.status) = some .pending) :
    (PipelineStep s (applySettle s e l1 l2 (.error msg)) ∧
     lookupEntry (applySettle s e l1 l2 (.error msg)).results e.label =
       some (errorEntry msg) ∧
     (applySettle s e l1 l2 (.error msg)).queue = s.queue ∧
     (applySettle s e l1 l2 (.error msg)).busy = l1 ++ l2 ∧
     (∀ l', l' ≠ e.label →
       lookupEntry (applySettle s e l1 l2 (.error msg)).results l' =
         lookupEntry s.results l')) ∧
    handleRegenerateEmotion (some img) (fun _ _ => .error msg) m label =
      (setEntry (setEntry m label pendingEntry) label (errorEntry msg), 1) ∧
    lookupEntry (handleRegenerateEmotion (some img) (fun _ _ => .error msg) m label).1
      label = some (errorEntry msg) ∧
    (msg = none →
      errorEntry msg = { status := .error, error := some defaultErrorMessage }) ∧
    (∀ txt, msg = some txt → errorEntry msg = { status := .error, error := some txt }) := by
  have hreg : handleRegenerateEmotion (some img) (fun _ _ => .error msg) m label =
      (setEntry (setEntry m label pendingEntry) label (errorEntry msg), 1) := by
    unfold handleRegenerateEmotion
    rw [hfind]
    simp [hnp]
  refine ⟨⟨PipelineStep.settle s e l1 l2 (.error msg) hb, ?_, rfl, rfl, ?_⟩,
    hreg, ?_, ?_, ?_⟩
  · simp only [applySettle, settledEntry]
    exact lookupEntry_setEntry_self _ _ _
  · intro l' hl
    simp only [applySettle]
    exact lookupEntry_setEntry_other _ _ _ _ hl
  · rw [hreg]
    exact lookupEntry_setEntry_self _ _ _
  · intro h
    rw [h]
    rfl
  · intro txt h
    rw [h]
    rfl

theorem failure_sets_error_locally_witness :
    (PipelineStep wState1 (applySettle wState1 wSpec [] [] (.error none)) ∧
     lookupEntry (applySettle wState1 wSpec [] [] (.error none)).results wSpec.label =
       some (errorEntry none) ∧
     (applySettle wState1 wSpec [] [] (.error none)).queue = wState1.queue ∧
     (applySettle wState1 wSpec [] [] (.error none)).busy = [] ++ [] ∧
     (∀ l', l' ≠ wSpec.label →
       lookupEntry (applySettle wState1 wSpec [] [] (.error none)).results l' =
         lookupEntry wState1.results l')) ∧
    handleRegenerateEmotion (some "img") (fun _ _ => .error none) []
        "ÌïµÏù∏Ïã∏ ÏõÉÏùå" =
      (setEntry (setEntry [] "ÌïµÏù∏Ïã∏ ÏõÉÏùå" pendingEntry) "ÌïµÏù∏Ïã∏ ÏõÉÏùå"
        (errorEntry none), 1) ∧
    lookupEntry (handleRegenerateEmotion (some "img") (fun _ _ => .error none) []
        "ÌïµÏù∏Ïã∏ ÏõÉÏùå").1 "ÌïµÏù∏Ïã∏ ÏõÉÏùå" = some (errorEntry none) ∧
    ((none : Option String) = none →
      errorEntry none = { status := .error, error := some defaultErrorMessage }) ∧
    (∀ txt, (none : Option String) = some txt →
      errorEntry none = { status := .error, error := some txt }) :=
  failure_sets_error_locally wState1 wSpec [] [] none rfl "img" []
    "ÌïµÏù∏Ïã∏ ÏõÉÏùå" (EMOTIONS.get ⟨0, by decide⟩) (by decide) (by decide)

theorem filterMap_full_length_all_some {α β : Type} (f : α → Option β) (l : List α)
    (h : (l.filterMap f).length = l.length) : ∀ x ∈ l, (f x).isSome = true := by
  induction l with
  | nil => simp
  | cons a rest ih =>
    cases hf : f a with
    | none =>
      rw [List.filterMap_cons_none hf] at h
      have hle := List.length_filterMap_le f rest
      rw [List.length_cons] at h
      exfalso
      omega
    | some b =>
      rw [List.filterMap_cons_some hf] at h
      simp only [List.length_cons, Nat.add_right_cancel_iff] at h
      intro x hx
      rcases List.mem_cons.mp hx with hx | hx
      · rw [hx, hf]
        rfl
      · exact ih h x hx

/-- C6: album export is rejected up front — no collage composed, no partial
export, results map unchanged — whenever fewer labels are done-with-url than
there are EmotionSpec entries; and a collage is produced only when every
EmotionSpec label's entry is done with a truthy url. -/
theorem album_export_requires_all_done (ctx2d : Bool) (decode : String → Option ImgEl)
    (rand : Nat → ℚ) (m : ResultsMap)
    (hnd : (m.map Prod.fst).Nodup)
    (hsub : ∀ p ∈ m, p.1 ∈ EMOTIONS.map (fun x => x.label)) :
    ((albumImageData m).length < EMOTIONS.length →
      handleDownloadAlbum ctx2d decode rand m = (none, m)) ∧
    (∀ page, (handleDownloadAlbum ctx2d decode rand m).1 = some page →
      ∀ e ∈ EMOTIONS, ∃ r, lookupEntry m e.label = some r ∧
        r.status = .done ∧ truthy r.url = true) := by
  constructor
  · intro h
    simp only [handleDownloadAlbum, if_pos h]
  · intro page hp e he
    by_cases hlt : (albumImageData m).length < EMOTIONS.length
    · simp only [handleDownloadAlbum, if_pos hlt] at hp
      simp at hp
    · have h6 : EMOTIONS.length ≤ (albumImageData m).length := Nat.le_of_not_lt hlt
      have hfle : (albumImageData m).length ≤ m.length := List.length_filterMap_le _ _
      have hkeysub : (m.map Prod.fst) ⊆ (EMOTIONS.map (fun x => x.label)) := by
        intro x hx
        obtain ⟨p, hpm, hpx⟩ := List.mem_map.mp hx
        rw [← hpx]
        exact hsub p hpm
      have hsp := List.subperm_of_subset hnd hkeysub
      have hm6 : m.length ≤ EMOTIONS.length := by
        have hl := hsp.length_le
        simpa using hl
      have heq : (m.filterMap (fun p =>
          if p.2.status = .done ∧ truthy p.2.url = true then
            p.2.url.map (fun u => (p.1, u))
          else none)).length = m.length := by
        have : (albumImageData m).length = m.length := by omega
        simpa [albumImageData] using this
      have hall := filterMap_full_length_all_some _ m heq
      have hperm : List.Perm (m.map Prod.fst) (EMOTIONS.map (fun x => x.label)) := by
        apply hsp.perm_of_length_le
        simp only [List.length_map]
        omega
      have hkey : e.label ∈ m.map Prod.fst := by
        rw [hperm.mem_iff]
        exact List.mem_map_of_mem (fun x => x.label) he
      obtain ⟨p, hpm, hpe⟩ := List.mem_map.mp hkey
      have hs := hall p hpm
      have hc : p.2.status = .done ∧ truthy p.2.url = true := by
        by_contra hc
        rw [if_neg hc] at hs
        simp at hs
      refine ⟨p.2, ?_, hc.1, hc.2⟩
      apply lookupEntry_of_mem_nodup hnd
      have hpp : p = (e.label, p.2) := by
        cases p
        simp_all
      rw [← hpp]
      exact hpm

theorem loadImage_ok_isSome {decode : String → Option ImgEl} {src : String}
    {img : ImgEl} (h : loadImage decode src = .ok img) : decode src = some img := by
  unfold loadImage at h
  cases hd : decode src with
  | none =>
    rw [hd] at h
    cases h
  | some i =>
    rw [hd] at h
    cases h
    rfl

theorem loadImages_ok_all {decode : String → Option ImgEl} {urls : List String}
    {imgs : List ImgEl} (h : loadImages decode urls = .ok imgs) :
    ∀ u ∈ urls, (decode u).isSome = true := by
  induction urls generalizing imgs with
  | nil => simp
  | cons src rest ih =>
    unfold loadImages at h
    cases h1 : loadImage decode src with
    | error msg =>
      rw [h1] at h
      cases h
    | ok img =>
      cases h2 : loadImages decode rest with
      | error msg =>
        rw [h1, h2] at h
        cases h
      | ok imgs2 =>
        intro u hu
        rcases List.mem_cons.mp hu with hu | hu
        · rw [hu, loadImage_ok_isSome h1]
          rfl
        · exact ih h2 u hu

theorem loadImages_fail {decode : String → Option ImgEl} {urls : List String}
    (h : ∃ u ∈ urls, decode u = none) :
    ∃ msg, loadImages decode urls = .error msg := by
  induction urls with
  | nil => simp at h
  | cons src rest ih =>
    obtain ⟨u, hu, hdu⟩ := h
    unfold loadImages
    cases h1 : loadImage decode src with
    | error msg => exact ⟨msg, rfl⟩
    | ok img =>
      rcases List.mem_cons.mp hu with he | he
      · rw [he, loadImage_ok_isSome h1] at hdu
        cases hdu
      · obtain ⟨msg, hmsg⟩ := ih ⟨u, he, hdu⟩
        rw [hmsg]
        exact ⟨msg, rfl⟩

theorem loadImages_all_ok {decode : String → Option ImgEl} {urls : List String}
    (h : ∀ u ∈ urls, (decode u).isSome = true) :
    ∃ imgs, loadImages decode urls = .ok imgs ∧ imgs.length = urls.length := by
  induction urls with
  | nil => exact ⟨[], rfl, rfl⟩
  | cons src rest ih =>
    obtain ⟨imgs, himgs, hlen⟩ := ih (fun u hu => h u (List.mem_cons_of_mem _ hu))
    have hsrc := h src (List.mem_cons_self _ _)
    cases hd : decode src with
    | none =>
      rw [hd] at hsrc
      cases hsrc
    | some img =>
      refine ⟨img :: imgs, ?_, by simp [hlen]⟩
      unfold loadImages
      rw [himgs]
      unfold loadImage
      rw [hd]

theorem loadImages_length {decode : String → Option ImgEl} {urls : List String}
    {imgs : List ImgEl} (h : loadImages decode urls = .ok imgs) :
    imgs.length = urls.length := by
  induction urls generalizing imgs with
  | nil =>
    unfold loadImages at h
    cases h
    rfl
  | cons src rest ih =>
    unfold loadImages at h
    cases h1 : loadImage decode src with
    | error msg =>
      rw [h1] at h
      cases h
    | ok img =>
      cases h2 : loadImages decode rest with
      | error msg =>
        rw [h1, h2] at h
        cases h
      | ok imgs2 =>
        rw [h1, h2] at h
        cases h
        simp [ih h2]

theorem album_export_requires_all_done_witness :
    (((albumImageData wDoneMap).length < EMOTIONS.length →
      handleDownloadAlbum true (fun _ => some ⟨1, 1⟩) (fun _ => 1 / 2) wDoneMap =
        (none, wDoneMap)) ∧
    (∀ page,
      (handleDownloadAlbum true (fun _ => some ⟨1, 1⟩) (fun _ => 1 / 2) wDoneMap).1 =
        some page →
      ∀ e ∈ EMOTIONS, ∃ r, lookupEntry wDoneMap e.label = some r ∧
        r.status = .done ∧ truthy r.url = true)) :=
  album_export_requires_all_done true (fun _ => some ⟨1, 1⟩) (fun _ => 1 / 2) wDoneMap
    (by decide) (by decide)

/-- C7: if any single supplied image url fails to load, the whole collage
composition fails with no partial output, and a successful composition implies
every supplied url loaded. -/
theorem compositor_failfast_on_any_load_failure (ctx2d : Bool)
    (decode : String → Option ImgEl) (rand : Nat → ℚ)
    (imageData : List (String × String)) :
    ((∃ p ∈ imageData, decode p.2 = none) →
      ∃ msg, createAlbumPage ctx2d decode rand imageData = .error msg) ∧
    (∀ page, createAlbumPage ctx2d decode rand imageData = .ok page →
      ∀ p ∈ imageData, (decode p.2).isSome = true) := by
  constructor
  · intro h
    obtain ⟨p, hp, hdp⟩ := h
    unfold createAlbumPage
    cases ctx2d with
    | false => exact ⟨"Could not get 2D canvas context", rfl⟩
    | true =>
      obtain ⟨msg, hmsg⟩ :=
        loadImages_fail ⟨p.2, List.mem_map_of_mem Prod.snd hp, hdp⟩
      rw [if_pos rfl, hmsg]
      exact ⟨msg, rfl⟩
  · intro page hpage p hp
    unfold createAlbumPage at hpage
    cases ctx2d with
    | false => cases hpage
    | true =>
      rw [if_pos rfl] at hpage
      cases hl : loadImages decode (imageData.map Prod.snd) with
      | error msg =>
        rw [hl] at hpage
        cases hpage
      | ok imgs =>
        exact loadImages_ok_all hl p.2 (List.mem_map_of_mem Prod.snd hp)

theorem compositor_failfast_on_any_load_failure_witness :
    ((∃ p ∈ [("a", "good"), ("b", "bad")],
        (fun s => if s = "bad" then none else some (⟨1, 1⟩ : ImgEl)) p.2 = none) →
      ∃ msg, createAlbumPage true
        (fun s => if s = "bad" then none else some (⟨1, 1⟩ : ImgEl)) (fun _ => 1 / 2)
        [("a", "good"), ("b", "bad")] = .error msg) ∧
    (∀ page, createAlbumPage true
        (fun s => if s = "bad" then none else some (⟨1, 1⟩ : ImgEl)) (fun _ => 1 / 2)
        [("a", "good"), ("b", "bad")] = .ok page →
      ∀ p ∈ [("a", "good"), ("b", "bad")],
        ((fun s => if s = "bad" then none else some (⟨1, 1⟩ : ImgEl)) p.2).isSome = true) :=
  compositor_failfast_on_any_load_failure true
    (fun s => if s = "bad" then none else some (⟨1, 1⟩ : ImgEl)) (fun _ => 1 / 2)
    [("a", "good"), ("b", "bad")]

/-- C8: the cover fit scales uniformly so the image fully covers the target
rectangle — a wider-than-target source fits the height exactly, overflows the
width, and crops symmetrically; a narrower-or-equal source fits the width
exactly, overflows the height, and crops symmetrically. -/
theorem coverFit_cover_properties (imgW imgH targetW targetH : ℚ)
    (hiw : 0 < imgW) (hih : 0 < imgH) (htw : 0 < targetW) (hth : 0 < targetH) :
    (targetW / targetH < imgW / imgH →
      (coverFit imgW imgH targetW targetH).2.1 = targetH ∧
      targetW ≤ (coverFit imgW imgH targetW targetH).1 ∧
      -(coverFit imgW imgH targetW targetH).2.2.1 =
        ((coverFit imgW imgH targetW targetH).2.2.1 +
          (coverFit imgW imgH targetW targetH).1) - targetW ∧
      (coverFit imgW imgH targetW targetH).2.2.2 = 0) ∧
    (imgW / imgH ≤ targetW / targetH →
      (coverFit imgW imgH targetW targetH).1 = targetW ∧
      targetH ≤ (coverFit imgW imgH targetW targetH).2.1 ∧
      -(coverFit imgW imgH targetW targetH).2.2.2 =
        ((coverFit imgW imgH targetW targetH).2.2.2 +
          (coverFit imgW imgH targetW targetH).2.1) - targetH ∧
      (coverFit imgW imgH targetW targetH).2.2.1 = 0) := by
  constructor
  · intro h
    have hfit : coverFit imgW imgH targetW targetH =
        (targetH * (imgW / imgH), targetH,
          -(targetH * (imgW / imgH) - targetW) / 2, 0) := by
      simp only [coverFit]
      rw [if_pos h]
    rw [hfit]
    refine ⟨rfl, ?_, by ring, rfl⟩
    have h1 : targetH * (targetW / targetH) = targetW := by
      field_simp
    calc targetW = targetH * (targetW / targetH) := h1.symm
      _ ≤ targetH * (imgW / imgH) :=
          mul_le_mul_of_nonneg_left (le_of_lt h) (le_of_lt hth)
  · intro h
    have hns : ¬ targetW / targetH < imgW / imgH := not_lt.mpr h
    have hfit : coverFit imgW imgH targetW targetH =
        (targetW, targetW / (imgW / imgH), 0,
          -(targetW / (imgW / imgH) - targetH) / 2) := by
      simp only [coverFit]
      rw [if_neg hns]
    rw [hfit]
    refine ⟨rfl, ?_, by ring, rfl⟩
    have hr : 0 < imgW / imgH := div_pos hiw hih
    rw [le_div_iff₀ hr]
    calc targetH * (imgW / imgH) ≤ targetH * (targetW / targetH) :=
        mul_le_mul_of_nonneg_left h (le_of_lt hth)
      _ = targetW := by field_simp

theorem coverFit_cover_properties_witness :
    ((1 : ℚ) / 1 < 2 / 1 →
      (coverFit 2 1 1 1).2.1 = 1 ∧
      (1 : ℚ) ≤ (coverFit 2 1 1 1).1 ∧
      -(coverFit 2 1 1 1).2.2.1 =
        ((coverFit 2 1 1 1).2.2.1 + (coverFit 2 1 1 1).1) - 1 ∧
      (coverFit 2 1 1 1).2.2.2 = 0) ∧
    ((2 : ℚ) / 1 ≤ 1 / 1 →
      (coverFit 2 1 1 1).1 = 1 ∧
      (1 : ℚ) ≤ (coverFit 2 1 1 1).2.1 ∧
      -(coverFit 2 1 1 1).2.2.2 =
        ((coverFit 2 1 1 1).2.2.2 + (coverFit 2 1 1 1).2.1) - 1 ∧
      (coverFit 2 1 1 1).2.2.1 = 0) :=
  coverFit_cover_properties 2 1 1 1 (by norm_num) (by norm_num) (by norm_num)
    (by norm_num)

theorem createAlbumPage_ok_cards {decode : String → Option ImgEl} {rand : Nat → ℚ}
    {imageData : List (String × String)} {page : AlbumPage}
    (hok : createAlbumPage true decode rand imageData = .ok page) :
    ∃ imgs, loadImages decode (imageData.map Prod.snd) = .ok imgs ∧
      imgs.length = imageData.length ∧
      page.cards = ((imageData.map Prod.fst).zip imgs).enum.map
        (fun p => drawCard rand p.1 p.2.1 p.2.2) := by
  unfold createAlbumPage at hok
  rw [if_pos rfl] at hok
  cases hl : loadImages decode (imageData.map Prod.snd) with
  | error msg =>
    rw [hl] at hok
    cases hok
  | ok imgs =>
    rw [hl] at hok
    refine ⟨imgs, rfl, by simpa using loadImages_length hl, ?_⟩
    cases hok
    rfl

theorem cards_getElem_opt (L : List (String × ImgEl)) (rand : Nat → ℚ) (i : Nat)
    (c : CardDraw)
    (hc : (L.enum.map (fun p => drawCard rand p.1 p.2.1 p.2.2))[i]? = some c) :
    ∃ v, L[i]? = some v ∧ c = drawCard rand i v.1 v.2 := by
  rw [List.getElem?_map, List.getElem?_enum] at hc
  cases hv : L[i]? with
  | none =>
    rw [hv] at hc
    cases hc
  | some v =>
    rw [hv] at hc
    simp only [Option.map] at hc
    cases hc
    exact ⟨v, rfl, rfl⟩

/-- C9: with zero rotation jitter, the compositor places the card for input
index i at row = i div 2, column = i mod 2, processing entries in input
order; horizontally adjacent card centers are a constant distance apart,
likewise vertically adjacent ones; each card is 90% of its cell height at a
3:4 aspect ratio and horizontally centered in its cell. -/
theorem layout_grid_placement_uniform (decode : String → Option ImgEl)
    (rand : Nat → ℚ) (imageData : List (String × String)) (page : AlbumPage)
    (hz : ∀ n, rand n = 1 / 2)
    (hok : createAlbumPage true decode rand imageData = .ok page)
    (hN : imageData.length ≤ gridCols * gridRows) :
    page.cards.map (fun c => c.label) = imageData.map Prod.fst ∧
    (∀ i c, page.cards[i]? = some c →
      c.row = i / gridCols ∧ c.col = i % gridCols ∧ c.rotation = 0 ∧
      c.x = cardX (i % gridCols) ∧ c.y = cardY (i / gridCols)) ∧
    (∀ c : Nat, (cardX (c + 1) + cardWidth / 2) - (cardX c + cardWidth / 2) =
      gridPadding + cellWidth) ∧
    (∀ r : Nat, (cardY (r + 1) + cardHeight / 2) - (cardY r + cardHeight / 2) =
      gridPadding + cellHeight) ∧
    cardHeight = cellHeight * (9 / 10) ∧
    cardWidth = cardHeight * (3 / 4) ∧
    (∀ c : Nat, cardX c - (gridPadding * ((c : ℚ) + 1) + cellWidth * (c : ℚ)) =
      (cellWidth - cardWidth) / 2) := by
  obtain ⟨imgs, hl, hlen, hcards⟩ := createAlbumPage_ok_cards hok
  refine ⟨?_, ?_, ?_, ?_, rfl, rfl, ?_⟩
  · rw [hcards, List.map_map]
    rw [show ((fun c => c.label) ∘
        (fun p : Nat × (String × ImgEl) => drawCard rand p.1 p.2.1 p.2.2)) =
        (Prod.fst ∘ Prod.snd) from rfl]
    rw [← List.map_map, List.enum_map_snd]
    exact List.map_fst_zip _ _ (by simp [hlen])
  · intro i c hc
    rw [hcards] at hc
    obtain ⟨v, hv, hcv⟩ := cards_getElem_opt _ rand i c hc
    subst hcv
    refine ⟨rfl, rfl, ?_, rfl, rfl⟩
    simp [drawCard, hz]
  · intro c
    simp only [cardX]
    push_cast
    ring
  · intro r
    simp only [cardY]
    push_cast
    ring
  · intro c
    simp only [cardX]
    ring

theorem layout_grid_placement_uniform_witness :
    wAlbumPage.cards.map (fun c => c.label) = [("a", "u")].map Prod.fst ∧
    (∀ i c, wAlbumPage.cards[i]? = some c →
      c.row = i / gridCols ∧ c.col = i % gridCols ∧ c.rotation = 0 ∧
      c.x = cardX (i % gridCols) ∧ c.y = cardY (i / gridCols)) ∧
    (∀ c : Nat, (cardX (c + 1) + cardWidth / 2) - (cardX c + cardWidth / 2) =
      gridPadding + cellWidth) ∧
    (∀ r : Nat, (cardY (r + 1) + cardHeight / 2) - (cardY r + cardHeight / 2) =
      gridPadding + cellHeight) ∧
    cardHeight = cellHeight * (9 / 10) ∧
    cardWidth = cardHeight * (3 / 4) ∧
    (∀ c : Nat, cardX c - (gridPadding * ((c : ℚ) + 1) + cellWidth * (c : ℚ)) =
      (cellWidth - cardWidth) / 2) :=
  layout_grid_placement_uniform wDecode wRand [("a", "u")] wAlbumPage
    (fun _ => rfl) rfl (by decide)

theorem cardY_gt_reserved_bottom {row : Nat} (h : 3 ≤ row) :
    contentTopMargin + gridPadding * 3 + cellHeight * 3 < cardY row := by
  have hc : (3 : ℚ) ≤ (row : ℚ) := by exact_mod_cast h
  have hcell : cellHeight = 876 := by
    norm_num [cellHeight, contentHeight, canvasHeight, contentTopMargin, gridPadding,
      gridRows]
  have hcard : cardHeight = 3942 / 5 := by
    norm_num [cardHeight, hcell, cardAspect]
  simp only [cardY, hcell, hcard, contentTopMargin, gridPadding]
  linarith

/-- C10: `createAlbumPage` never validates the size of its input against the
2×3 grid: an empty mapping succeeds with only background and title (no
cards), and any all-loadable mapping succeeds with one card per entry at
row = index div 2, so entries with index ≥ 6 land strictly below the six
reserved grid cells. -/
theorem createAlbumPage_no_size_validation (decode : String → Option ImgEl)
    (rand : Nat → ℚ) (imageData : List (String × String))
    (hload : ∀ p ∈ imageData, (decode p.2).isSome = true) :
    (∃ page, createAlbumPage true decode rand [] = .ok page ∧ page.cards = []) ∧
    (∃ page, createAlbumPage true decode rand imageData = .ok page ∧
      page.cards.length = imageData.length ∧
      ∀ i c, page.cards[i]? = some c → c.row = i / gridCols ∧
        (6 ≤ i → contentTopMargin + gridPadding * 3 + cellHeight * 3 < c.y)) := by
  constructor
  · exact ⟨_, rfl, rfl⟩
  · have hall : ∀ u ∈ imageData.map Prod.snd, (decode u).isSome = true := by
      intro u hu
      obtain ⟨p, hp, hpu⟩ := List.mem_map.mp hu
      rw [← hpu]
      exact hload p hp
    obtain ⟨imgs, hl, hlen⟩ := loadImages_all_ok hall
    have hlen2 : imgs.length = imageData.length := by simpa using hlen
    refine ⟨{ width := canvasWidth
              height := canvasHeight
              cards := ((imageData.map Prod.fst).zip imgs).enum.map
                (fun p => drawCard rand p.1 p.2.1 p.2.2)
              quality := 9 / 10 }, ?_, ?_, ?_⟩
    · unfold createAlbumPage
      rw [if_pos rfl, hl]
    · simp [List.length_zip, hlen2]
    · intro i c hc
      obtain ⟨v, hv, hcv⟩ := cards_getElem_opt _ rand i c hc
      subst hcv
      refine ⟨rfl, ?_⟩
      intro h6
      have hrow : 3 ≤ i / gridCols := by
        simp only [gridCols]
        omega
      exact cardY_gt_reserved_bottom hrow

theorem createAlbumPage_no_size_validation_witness :
    (∃ page, createAlbumPage true wDecode wRand [] = .ok page ∧ page.cards = []) ∧
    (∃ page, createAlbumPage true wDecode wRand wSeven = .ok page ∧
      page.cards.length = wSeven.length ∧
      ∀ i c, page.cards[i]? = some c → c.row = i / gridCols ∧
        (6 ≤ i → contentTopMargin + gridPadding * 3 + cellHeight * 3 < c.y)) :=
  createAlbumPage_no_size_validation wDecode wRand wSeven (by decide)
